import Mathlib

/-!
Verification of the inference-serving pipeline of `ml_training/prediction_api.py`
(Sign-and-Speak repository).

The Flask handler `predict`, the startup loader `load_model_and_metadata` and the
helpers they use are embedded shallowly:

* JSON request bodies are the inductive `Json`; Python's `in`, `[]` and `len`
  on such values are `pyContains`, `pyGetItem`, `pyLen`, including the
  `TypeError`s Python raises on unsupported operand types.
* Python exceptions are `PyErr`; the `try/except` boundary of the handler turns
  any of them into a 500 response, mirroring `except Exception`.
* Feature values and normalization parameters are exact rationals `ℚ`.
  Classifier outputs live in `Conf := WithTop (WithBot ℚ)`: rationals extended
  with `+∞`/`-∞`, so that non-finite classifier outputs are representable
  (IEEE NaN, which has no order, is outside the embedding, as is numpy's
  non-signalling division by zero and its string-to-float coercion — no
  theorem below depends on those paths).
* The classifier (`model.predict`) is an opaque function field of the bundle,
  returning either a vector of confidences or a raised exception.
-/

/-- Python exception values, as far as the handler can observe them:
only the message matters, because `except Exception as e` serialises `str(e)`. -/
inductive PyErr where
  | typeError (msg : String)
  | keyError (msg : String)
  | valueError (msg : String)
  | indexError (msg : String)
  | other (msg : String)
deriving DecidableEq

instance {ε α : Type} [DecidableEq ε] [DecidableEq α] : DecidableEq (Except ε α) := fun x y =>
  match x, y with
  | .ok a, .ok b =>
      if h : a = b then .isTrue (by rw [h]) else .isFalse (by intro hc; cases hc; exact h rfl)
  | .error a, .error b =>
      if h : a = b then .isTrue (by rw [h]) else .isFalse (by intro hc; cases hc; exact h rfl)
  | .ok _, .error _ => .isFalse (by intro hc; cases hc)
  | .error _, .ok _ => .isFalse (by intro hc; cases hc)

/-- `str(e)` as used by the handler's `except` branch. -/
def PyErr.msg : PyErr → String
  | .typeError m => m
  | .keyError m => m
  | .valueError m => m
  | .indexError m => m
  | .other m => m

/-- Parsed JSON values as Flask's `request.json` hands them to the handler.
Objects are association lists in insertion order (Python dicts preserve
insertion order; a well-formed object has pairwise distinct keys). -/
inductive Json where
  | null
  | bool (b : Bool)
  | num (q : ℚ)
  | str (s : String)
  | arr (elems : List Json)
  | obj (entries : List (String × Json))

/-- Confidence values: rationals extended with `+∞` (`⊤`) and `-∞` (`⊥`),
the linearly ordered fragment of IEEE floats the classifier may emit. -/
abbrev Conf := WithTop (WithBot ℚ)

/-- Finite confidence value. -/
def qc (q : ℚ) : Conf := ((q : WithBot ℚ) : Conf)

/-- Python's `needle in data` for a string needle, as used by
`if 'features' not in data`: key membership on dicts, element equality on
lists, substring test on strings, `TypeError` otherwise. -/
def pyContains (needle : String) : Json → Except PyErr Bool
  | .obj entries => .ok (entries.any (fun kv => kv.1 == needle))
  | .arr elems =>
      .ok (elems.any (fun e => match e with | .str t => t == needle | _ => false))
  | .str s => .ok (decide (needle.data <:+: s.data))
  | .null => .error (.typeError "argument of type NoneType is not iterable")
  | .bool _ => .error (.typeError "argument of type bool is not iterable")
  | .num _ => .error (.typeError "argument of type number is not iterable")

/-- Python's `data[key]` for a string key: dict lookup (first matching key),
`TypeError` on lists/strings (string indices), `TypeError` otherwise. -/
def pyGetItem (key : String) : Json → Except PyErr Json
  | .obj entries =>
      match entries.find? (fun kv => kv.1 == key) with
      | some kv => .ok kv.2
      | none => .error (.keyError key)
  | .arr _ => .error (.typeError "list indices must be integers or slices, not str")
  | .str _ => .error (.typeError "string indices must be integers")
  | .null => .error (.typeError "NoneType object is not subscriptable")
  | .bool _ => .error (.typeError "bool object is not subscriptable")
  | .num _ => .error (.typeError "number object is not subscriptable")

/-- Python's `len(x)`: entry count of dicts, length of lists and strings,
`TypeError` otherwise. -/
def pyLen : Json → Except PyErr Nat
  | .obj entries => .ok entries.length
  | .arr elems => .ok elems.length
  | .str s => .ok s.length
  | .null => .error (.typeError "object of type NoneType has no len")
  | .bool _ => .error (.typeError "object of type bool has no len")
  | .num _ => .error (.typeError "object of type number has no len")

/-- `np.array(feature_vector, dtype=np.float32)` element conversion: numbers
pass through, Python booleans coerce to 1/0, anything else raises.
(Numeric strings, which numpy would also coerce, are not modelled; no claim
exercises them.) -/
def toFloat : Json → Except PyErr ℚ
  | .num q => .ok q
  | .bool b => .ok (if b then 1 else 0)
  | _ => .error (.valueError "could not convert value to float32")

/-- 1-D numpy broadcasting of a binary arithmetic op between the feature row
(length `F`) and a parameter array: elementwise on equal lengths, scalar
broadcast when either side has length 1, `ValueError` otherwise. -/
def npBroadcast (f : ℚ → ℚ → ℚ) (v p : List ℚ) : Except PyErr (List ℚ) :=
  if p.length = v.length then .ok (List.zipWith f v p)
  else if p.length = 1 then .ok (v.map (fun x => f x (p.headD 0)))
  else if v.length = 1 then .ok (p.map (fun y => f (v.headD 0) y))
  else .error (.valueError "operands could not be broadcast together")

/-- `X_scaled = (X - np.array(scaler['mean'])) / np.array(scaler['scale'])`. -/
def normalizeVec (v mean scale : List ℚ) : Except PyErr (List ℚ) :=
  match npBroadcast (fun a b => a - b) v mean with
  | .error e => .error e
  | .ok sub => npBroadcast (fun a b => a / b) sub scale

/-- Maximum of the nonempty list `x :: xs` (numpy `max` over the
probability vector; `Conf` is linearly ordered, NaN excluded). -/
def listMax (x : Conf) : List Conf → Conf
  | [] => x
  | y :: ys => max x (listMax y ys)

/-- First index at which `x :: xs` attains its maximum — `np.argmax`
returns the first occurrence of the maximum value. -/
def firstArgmax (x : Conf) : List Conf → Nat
  | [] => 0
  | y :: ys => if listMax y ys ≤ x then 0 else firstArgmax y ys + 1

/-- `np.argmax(predictions)`: first index of the maximum; `ValueError` on an
empty vector. -/
def npArgmax : List Conf → Except PyErr Nat
  | [] => .error (.valueError "attempt to get argmax of an empty sequence")
  | x :: xs => .ok (firstArgmax x xs)

/-- A ranked entry: generation index `i` (the label index, recorded so that
the deterministic tie-break can be stated), `labels[i]`, `predictions[i]`.
The source builds dicts `{'sign': labels[i], 'confidence': predictions[i]}`;
the index component is carried for specification only and is never compared
by the sort, which keys on the confidence alone, exactly as the source. -/
abbrev Entry := Nat × String × Conf

/-- The comprehension `[{'sign': labels[i], 'confidence': float(predictions[i])}
for i in range(len(labels))]`, raising `IndexError` when `predictions` is
shorter than `labels`. -/
def buildEntriesAux : Nat → List String → List Conf → Except PyErr (List Entry)
  | _, [], _ => .ok []
  | i, s :: rest, probs =>
      match probs.get? i with
      | none => .error (.indexError "index out of range")
      | some p =>
          match buildEntriesAux (i + 1) rest probs with
          | .ok es => .ok ((i, s, p) :: es)
          | .error e => .error e

def buildEntries (labels : List String) (probs : List Conf) : Except PyErr (List Entry) :=
  buildEntriesAux 0 labels probs

/-- The sort key: `all_predictions.sort(key=lambda x: x['confidence'],
reverse=True)` — Python's stable sort placing `a` before `b` exactly when
`a`'s confidence is not below `b`'s; equal confidences keep original order. -/
def rStable (a b : Entry) : Prop := b.2.2 ≤ a.2.2

instance : DecidableRel rStable := fun a b => inferInstanceAs (Decidable (b.2.2 ≤ a.2.2))

/-- Python's stable `list.sort(..., reverse=True)` on the entry list. -/
def stableSortDesc (l : List Entry) : List Entry := List.insertionSort rStable l

/-- Response payload of a successful prediction. -/
structure PredOut where
  predicted_sign : String
  confidence : Conf
  all_predictions : List Entry
deriving DecidableEq

/-- HTTP response of the handler: 200 with payload, 400 with an error
message, or 500 with an error message. -/
inductive Resp where
  | ok (p : PredOut)
  | badRequest (msg : String)
  | internalError (msg : String)
deriving DecidableEq

/-- Lines 138–153 of `prediction_api.py`: argmax, top label/confidence,
ranked `all_predictions`, truncation to the top 5. -/
def buildResponse (labels : List String) (probs : List Conf) : Except PyErr PredOut :=
  match npArgmax probs with
  | .error e => .error e
  | .ok k =>
      match labels.get? k with
      | none => .error (.indexError "list index out of range")
      | some sign =>
          match probs.get? k with
          | none => .error (.indexError "index out of range")
          | some conf =>
              match buildEntries labels probs with
              | .error e => .error e
              | .ok entries => .ok ⟨sign, conf, (stableSortDesc entries).take 5⟩

/-- The loaded artifact bundle held in the module globals `model`, `labels`,
`feature_names`, `scaler`. The classifier is opaque: given the normalized
row it returns confidences or raises. -/
structure Bundle where
  model : List ℚ → Except PyErr (List Conf)
  labels : List String
  feature_names : List String
  scaler_mean : List ℚ
  scaler_scale : List ℚ

/-- Result of the extraction loop
`for feature_name in feature_names: ...` (lines 125–129): the ordered raw
values, or the 400 `Missing feature` early return, or a raised exception. -/
inductive ExtractRes where
  | ok (vals : List Json)
  | missing (name : String)
  | err (e : PyErr)

/-- The extraction loop itself: for each schema name in order, membership
test then subscript, collecting values in schema order. -/
def extractFeatures (names : List String) (fd : Json) : ExtractRes :=
  match names with
  | [] => .ok []
  | name :: rest =>
      match pyContains name fd with
      | .error e => .err e
      | .ok false => .missing name
      | .ok true =>
          match pyGetItem name fd with
          | .error e => .err e
          | .ok v =>
              match extractFeatures rest fd with
              | .ok vs => .ok (v :: vs)
              | r => r

/-- 400 message `f'Expected {len(feature_names)} features, got {len(features_dict)}'`. -/
def countMismatchMsg (expected got : Nat) : String :=
  s!"Expected {expected} features, got {got}"

/-- 400 message `f'Missing feature: {feature_name}'`. -/
def missingFeatureMsg (name : String) : String :=
  s!"Missing feature: {name}"

/-- Traverse `toFloat` over the extracted values (the single
`np.array(..., dtype=np.float32)` conversion). -/
def toFloats : List Json → Except PyErr (List ℚ)
  | [] => .ok []
  | v :: vs =>
      match toFloat v with
      | .error e => .error e
      | .ok q =>
          match toFloats vs with
          | .error e => .error e
          | .ok qs => .ok (q :: qs)

/-- Lines 131–153 of the handler, after a validated feature vector has been
extracted and converted: normalization, classifier invocation, ranking. -/
def pipelineTail (b : Bundle) (xs : List ℚ) : Resp :=
  match normalizeVec xs b.scaler_mean b.scaler_scale with
  | .error e => .internalError e.msg
  | .ok xsc =>
      match b.model xsc with
      | .error e => .internalError e.msg
      | .ok probs =>
          match buildResponse b.labels probs with
          | .error e => .internalError e.msg
          | .ok out => .ok out

/-- The `POST /api/predict` handler (lines 110–157). `body = none` models a
request whose JSON body Flask could not produce (absent body, wrong content
type, parse failure): `request.json` raises inside the `try`, so the
`except Exception` branch answers 500. Every other Python exception raised
in the body is likewise converted to a 500 with `str(e)`. -/
def predict (b : Bundle) (body : Option Json) : Resp :=
  match body with
  | none => .internalError "415 Unsupported Media Type: Did not attempt to load JSON data"
  | some data =>
      match pyContains "features" data with
      | .error e => .internalError e.msg
      | .ok false => .badRequest "Missing features in request"
      | .ok true =>
          match pyGetItem "features" data with
          | .error e => .internalError e.msg
          | .ok fd =>
              match pyLen fd with
              | .error e => .internalError e.msg
              | .ok n =>
                  if n ≠ b.feature_names.length then
                    .badRequest (countMismatchMsg b.feature_names.length n)
                  else
                    match extractFeatures b.feature_names fd with
                    | .missing name => .badRequest (missingFeatureMsg name)
                    | .err e => .internalError e.msg
                    | .ok vals =>
                        match toFloats vals with
                        | .error e => .internalError e.msg
                        | .ok xs => pipelineTail b xs

/-- State-passing form of the handler. The Python function body contains no
assignment to the module globals `model`, `labels`, `feature_names`,
`scaler` (and no `global` statement), so the translation threads the bundle
through unchanged. -/
def predictSt (b : Bundle) (body : Option Json) : Bundle × Resp :=
  (b, predict b body)

/-- The parsed contents of the artifact files read by
`load_model_and_metadata` (`model.keras`, `labels.json`, `features.json`,
`scaler.json`), plus the loaded classifier's output dimensionality. A file
that fails to open or parse raises before these values exist and kills the
process at import time; `Artifacts` is the post-parse state. -/
structure Artifacts where
  model : List ℚ → Except PyErr (List Conf)
  model_output_dim : Nat
  labels : List String
  feature_names : List String
  scaler_mean : List ℚ
  scaler_scale : List ℚ

/-- The bundle the loader publishes into the globals: each field passed
through verbatim. -/
def bundleOfArtifacts (a : Artifacts) : Bundle :=
  { model := a.model
    labels := a.labels
    feature_names := a.feature_names
    scaler_mean := a.scaler_mean
    scaler_scale := a.scaler_scale }

/-- `load_model_and_metadata` (lines 36–69): assigns the four globals from
the parsed files and returns. It contains no consistency check of any kind
(no length comparison, no zero-scale scan, no output-dimension check). -/
def load_model_and_metadata (a : Artifacts) : Except PyErr Bundle :=
  .ok (bundleOfArtifacts a)

/-! ### Basic facts about the normalizer -/

/-- With index-aligned parameter arrays the broadcast takes the elementwise
branch. -/
theorem npBroadcast_eq_zipWith (f : ℚ → ℚ → ℚ) (v p : List ℚ) (h : p.length = v.length) :
    npBroadcast f v p = Except.ok (List.zipWith f v p) := by
  simp [npBroadcast, h]

theorem normalizeVec_ok (v mean scale : List ℚ)
    (hm : mean.length = v.length) (hs : scale.length = v.length) :
    normalizeVec v mean scale
      = Except.ok (List.zipWith (fun a b => a / b) (List.zipWith (fun a b => a - b) v mean) scale) := by
  unfold normalizeVec
  rw [npBroadcast_eq_zipWith _ _ _ hm]
  exact npBroadcast_eq_zipWith _ _ _ (by simp [hs, hm])

theorem normalizeVec_length (v mean scale w : List ℚ)
    (hm : mean.length = v.length) (hs : scale.length = v.length)
    (hw : normalizeVec v mean scale = Except.ok w) : w.length = v.length := by
  rw [normalizeVec_ok v mean scale hm hs] at hw
  cases hw
  simp [hm, hs]

theorem normalizeVec_getD (v mean scale w : List ℚ)
    (hm : mean.length = v.length) (hs : scale.length = v.length)
    (hw : normalizeVec v mean scale = Except.ok w)
    (i : Nat) (hi : i < v.length) :
    w.getD i 0 = (v.getD i 0 - mean.getD i 0) / scale.getD i 0 := by
  rw [normalizeVec_ok v mean scale hm hs] at hw
  cases hw
  have h1 : i < (List.zipWith (fun a b => a - b) v mean).length := by simp [hm]; omega
  have h2 : i < (List.zipWith (fun a b => a / b)
      (List.zipWith (fun a b => a - b) v mean) scale).length := by simp [hm, hs]; omega
  rw [List.getD_eq_getElem _ _ h2, List.getD_eq_getElem _ _ hi,
    List.getD_eq_getElem _ _ (by omega : i < mean.length),
    List.getD_eq_getElem _ _ (by omega : i < scale.length),
    List.getElem_zipWith, List.getElem_zipWith]

/-! ### C2 / C8: the normalizer -/

/-- C2: for every validated feature vector of length `F` and index-aligned
parameters `mean[F]`, `scale[F]` with nonzero scales, the normalizer returns
a length-`F` vector with `out[i] = (v[i] - mean[i]) / scale[i]` per index;
and on schema `["a","b"]`, mean `[0,0]`, scale `[1,2]`, input
`{"a": 2, "b": 4}` the extracted vector `[2,4]` normalizes to `[2,2]`. -/
theorem normalizer_per_index (v mean scale : List ℚ)
    (hm : mean.length = v.length) (hs : scale.length = v.length)
    (hnz : ∀ q ∈ scale, q ≠ 0) :
    (∃ w, normalizeVec v mean scale = Except.ok w ∧ w.length = v.length ∧
      ∀ i, i < v.length → w.getD i 0 = (v.getD i 0 - mean.getD i 0) / scale.getD i 0) ∧
    extractFeatures ["a", "b"] (Json.obj [("a", Json.num 2), ("b", Json.num 4)])
      = ExtractRes.ok [Json.num 2, Json.num 4] ∧
    toFloats [Json.num 2, Json.num 4] = Except.ok [2, 4] ∧
    normalizeVec [2, 4] [0, 0] [1, 2] = Except.ok [2, 2] := by
  refine ⟨⟨_, normalizeVec_ok v mean scale hm hs, ?_, ?_⟩, ?_, ?_, ?_⟩
  · simp [hm, hs]
  · intro i hi
    exact normalizeVec_getD v mean scale _ hm hs (normalizeVec_ok v mean scale hm hs) i hi
  · rfl
  · rfl
  · with_unfolding_all decide

/-- C2 witness at the spec scenario. -/
theorem normalizer_per_index_witness :
    ((∃ w, normalizeVec [2, 4] [0, 0] [1, 2] = Except.ok w ∧ w.length = [(2:ℚ), 4].length ∧
      ∀ i, i < [(2:ℚ), 4].length →
        w.getD i 0 = ([(2:ℚ), 4].getD i 0 - [(0:ℚ), 0].getD i 0) / [(1:ℚ), 2].getD i 0) ∧
    extractFeatures ["a", "b"] (Json.obj [("a", Json.num 2), ("b", Json.num 4)])
      = ExtractRes.ok [Json.num 2, Json.num 4] ∧
    toFloats [Json.num 2, Json.num 4] = Except.ok [2, 4] ∧
    normalizeVec [2, 4] [0, 0] [1, 2] = Except.ok [2, 2]) :=
  normalizer_per_index [2, 4] [0, 0] [1, 2] rfl rfl (by decide)

/-- C8: normalization followed by the inverse affine map `x * scale + mean`
per index reconstructs the input exactly (the embedding is over `ℚ`). -/
theorem normalize_roundtrip (v mean scale : List ℚ)
    (hm : mean.length = v.length) (hs : scale.length = v.length)
    (hnz : ∀ q ∈ scale, q ≠ 0) :
    ∃ w, normalizeVec v mean scale = Except.ok w ∧
      List.zipWith (fun a b => a + b) (List.zipWith (fun a b => a * b) w scale) mean = v := by
  refine ⟨_, normalizeVec_ok v mean scale hm hs, ?_⟩
  apply List.ext_getElem
  · simp [hm, hs]
  · intro i h1 h2
    simp only [List.getElem_zipWith]
    have his : i < scale.length := by
      simp only [List.length_zipWith, hm, hs] at h1
      omega
    have hne : scale[i] ≠ 0 := hnz _ (List.getElem_mem his)
    rw [div_mul_cancel₀ _ hne, sub_add_cancel]

/-- C8 witness. -/
theorem normalize_roundtrip_witness :
    ∃ w, normalizeVec [3, 5] [1, 1] [2, 4] = Except.ok w ∧
      List.zipWith (fun a b => a + b) (List.zipWith (fun a b => a * b) w [2, 4]) [1, 1] = [3, 5] :=
  normalize_roundtrip [3, 5] [1, 1] [2, 4] rfl rfl (by decide)

/-! ### C1: the loader performs no consistency validation -/

/-- An artifact set violating every consistency condition the spec demands
the loader check: a zero scale entry, schema length 2 against parameter
arrays of length 1, and a label list of length 1 against classifier output
dimensionality 3. -/
def badArtifacts : Artifacts :=
  { model := fun _ => Except.ok []
    model_output_dim := 3
    labels := ["X"]
    feature_names := ["a", "b"]
    scaler_mean := [1]
    scaler_scale := [0] }

/-- C1 counterexample: `load_model_and_metadata` publishes this inconsistent
bundle instead of refusing to start. -/
theorem load_accepts_inconsistent_bundle :
    load_model_and_metadata badArtifacts = Except.ok (bundleOfArtifacts badArtifacts) ∧
    (0 : ℚ) ∈ badArtifacts.scaler_scale ∧
    badArtifacts.feature_names.length ≠ badArtifacts.scaler_mean.length ∧
    badArtifacts.labels.length ≠ badArtifacts.model_output_dim :=
  ⟨rfl, by simp [badArtifacts], by decide, by decide⟩

/-- C1 amended: the loader performs no consistency check at all — every
parsed artifact set, consistent or not, is published verbatim as the served
bundle (only failures to read or parse the artifact files abort startup,
upstream of this function's inputs). -/
theorem load_publishes_unvalidated (a : Artifacts) :
    load_model_and_metadata a = Except.ok (bundleOfArtifacts a) :=
  rfl

/-! ### C9: requests do not mutate the bundle -/

/-- C9: the handler body assigns none of the module globals, so the
state-passing form returns the bundle unchanged — every field is identical
before and after any request, including erroneous ones. -/
theorem predict_preserves_bundle (b : Bundle) (body : Option Json) :
    (predictSt b body).1 = b ∧
    (predictSt b body).1.model = b.model ∧
    (predictSt b body).1.labels = b.labels ∧
    (predictSt b body).1.feature_names = b.feature_names ∧
    (predictSt b body).1.scaler_mean = b.scaler_mean ∧
    (predictSt b body).1.scaler_scale = b.scaler_scale ∧
    (predictSt b body).2 = predict b body :=
  ⟨rfl, rfl, rfl, rfl, rfl, rfl, rfl⟩

/-! ### C10: non-object bodies -/

/-- A minimal consistent bundle used to instantiate counterexamples. -/
def demoBundle : Bundle :=
  { model := fun _ => Except.ok [qc 1]
    labels := ["A"]
    feature_names := ["a"]
    scaler_mean := [0]
    scaler_scale := [1] }

/-- C10 counterexample: a JSON **list** body is not answered with a 500 —
Python's `'features' not in data` is a membership test on lists, so the
handler reaches the 400 `Missing features in request` branch. -/
theorem list_body_yields_badRequest :
    predict demoBundle (some (Json.arr [])) = Resp.badRequest "Missing features in request" :=
  rfl

/-- C10 amended: an absent/unparseable body and JSON `null` / number /
boolean bodies produce the generic 500 (the `in` test raises `TypeError`);
a JSON object without a `"features"` key produces the 400
`Missing features in request`; but so does a JSON list (or any sequence
supporting `in`) that does not contain the string `"features"`. -/
theorem body_shape_error_mapping (b : Bundle) :
    predict b none
      = Resp.internalError "415 Unsupported Media Type: Did not attempt to load JSON data" ∧
    predict b (some Json.null)
      = Resp.internalError "argument of type NoneType is not iterable" ∧
    (∀ q : ℚ, predict b (some (Json.num q))
      = Resp.internalError "argument of type number is not iterable") ∧
    (∀ c : Bool, predict b (some (Json.bool c))
      = Resp.internalError "argument of type bool is not iterable") ∧
    (∀ kvs, kvs.any (fun kv => kv.1 == "features") = false →
      predict b (some (Json.obj kvs)) = Resp.badRequest "Missing features in request") ∧
    (∀ elems,
      elems.any (fun e => match e with | Json.str t => t == "features" | _ => false) = false →
      predict b (some (Json.arr elems)) = Resp.badRequest "Missing features in request") := by
  refine ⟨rfl, rfl, fun q => rfl, fun c => rfl, fun kvs h => ?_, fun elems h => ?_⟩
  · simp [predict, pyContains, h]
  · simp [predict, pyContains, h]

/-- C10 amended witness. -/
theorem body_shape_error_mapping_witness :
    predict demoBundle (some (Json.obj [("x", Json.num 3)]))
      = Resp.badRequest "Missing features in request" :=
  (body_shape_error_mapping demoBundle).2.2.2.2.1 [("x", Json.num 3)] (by decide)

/-! ### C5 / C6: request validation -/

/-- C5: whenever the `features` object's key count differs from `F`, the
handler answers the 400 count-mismatch message. The statement quantifies
over the classifier and the scaler arrays, and its right-hand side does not
mention them: the rejection happens before the normalizer or the classifier
could be invoked, so neither influences the response. -/
theorem feature_count_mismatch_rejected
    (model : List ℚ → Except PyErr (List Conf)) (labels fnames : List String)
    (mean scale : List ℚ) (fentries : List (String × Json))
    (hnodup : (fentries.map Prod.fst).Nodup)
    (hcount : fentries.length ≠ fnames.length) :
    predict ⟨model, labels, fnames, mean, scale⟩
        (some (Json.obj [("features", Json.obj fentries)]))
      = Resp.badRequest (countMismatchMsg fnames.length fentries.length) := by
  simp [predict, pyContains, pyGetItem, pyLen, hcount]

/-- C5 witness: one feature expected, two supplied. -/
theorem feature_count_mismatch_rejected_witness :
    predict ⟨fun _ => Except.ok [qc 1], ["A"], ["a"], [0], [1]⟩
        (some (Json.obj [("features", Json.obj [("a", Json.num 1), ("b", Json.num 2)])]))
      = Resp.badRequest (countMismatchMsg 1 2) :=
  feature_count_mismatch_rejected _ ["A"] ["a"] [0] [1]
    [("a", Json.num 1), ("b", Json.num 2)] (by decide) (by decide)

/-- If the first schema name (in schema order) absent from the dict is
`name`, the extraction loop stops at `name` with the `Missing feature`
early return. -/
theorem extractFeatures_missing_of_find?
    (fnames : List String) (fentries : List (String × Json)) (name : String)
    (h : fnames.find? (fun n => !(fentries.any (fun kv => kv.1 == n))) = some name) :
    extractFeatures fnames (Json.obj fentries) = ExtractRes.missing name := by
  induction fnames with
  | nil => simp at h
  | cons n rest ih =>
    by_cases hn : fentries.any (fun kv => kv.1 == n) = true
    · have hfind : ∃ kv, fentries.find? (fun kv => kv.1 == n) = some kv := by
        rw [← Option.isSome_iff_exists, List.find?_isSome]
        obtain ⟨x, hx, hpx⟩ := List.any_eq_true.mp hn
        exact ⟨x, hx, hpx⟩
      obtain ⟨kv, hkv⟩ := hfind
      have h' : rest.find? (fun m => !(fentries.any (fun kv => kv.1 == m))) = some name := by
        rw [List.find?_cons_of_neg _ (by simp [hn])] at h
        exact h
      simp [extractFeatures, pyContains, hn, pyGetItem, hkv, ih h']
    · have hn' : fentries.any (fun kv => kv.1 == n) = false := Bool.eq_false_iff.mpr hn
      rw [List.find?_cons_of_pos _ (by simp [hn'])] at h
      cases h
      simp [extractFeatures, pyContains, hn']

/-- C6: a `features` object with exactly `F` keys from which some schema
name is absent is answered with the 400 naming exactly the first missing
name in schema order; extra keys trigger no error of their own, and the
classifier/scaler again cannot influence the response. -/
theorem first_missing_feature_reported
    (model : List ℚ → Except PyErr (List Conf)) (labels fnames : List String)
    (mean scale : List ℚ) (fentries : List (String × Json))
    (hnodup : (fentries.map Prod.fst).Nodup)
    (hcount : fentries.length = fnames.length)
    (name : String)
    (hfind : fnames.find? (fun n => !(fentries.any (fun kv => kv.1 == n))) = some name) :
    predict ⟨model, labels, fnames, mean, scale⟩
        (some (Json.obj [("features", Json.obj fentries)]))
      = Resp.badRequest (missingFeatureMsg name) := by
  have hex := extractFeatures_missing_of_find? fnames fentries name hfind
  simp [predict, pyContains, pyGetItem, pyLen, hcount, hex]

/-- C6 witness: schema `["a","b"]`, supplied keys `{"b","c"}` (correct
count, one unknown extra key): the response names `a`, the first missing
schema name, and the extra key `c` is not reported. -/
theorem first_missing_feature_reported_witness :
    predict ⟨fun _ => Except.ok [qc 1], ["A"], ["a", "b"], [0, 0], [1, 1]⟩
        (some (Json.obj [("features", Json.obj [("b", Json.num 4), ("c", Json.num 5)])]))
      = Resp.badRequest (missingFeatureMsg "a") :=
  first_missing_feature_reported _ ["A"] ["a", "b"] [0, 0] [1, 1]
    [("b", Json.num 4), ("c", Json.num 5)] (by decide) (by decide) "a" (by decide)

/-! ### Ranking machinery: the stable descending sort and `np.argmax` -/

/-- Specification-side view of the entry list built by the comprehension:
entry `j` of `entriesFrom i names probs` is
`(i+j, names[j], probs[i+j])`. -/
def entriesFrom : Nat → List String → List Conf → List Entry
  | _, [], _ => []
  | i, s :: rest, probs => (i, s, probs.getD i (qc 0)) :: entriesFrom (i + 1) rest probs

theorem entriesFrom_length (i : Nat) (names : List String) (probs : List Conf) :
    (entriesFrom i names probs).length = names.length := by
  induction names generalizing i with
  | nil => rfl
  | cons s rest ih => simp [entriesFrom, ih]

theorem mem_entriesFrom (i : Nat) (names : List String) (probs : List Conf) (e : Entry) :
    e ∈ entriesFrom i names probs ↔
      ∃ j, j < names.length ∧ e = (i + j, names.getD j "", probs.getD (i + j) (qc 0)) := by
  induction names generalizing i with
  | nil => simp [entriesFrom]
  | cons s rest ih =>
    simp only [entriesFrom, List.mem_cons, ih (i + 1)]
    constructor
    · rintro (rfl | ⟨j, hj, rfl⟩)
      · exact ⟨0, by simp, by simp⟩
      · refine ⟨j + 1, by simpa using hj, ?_⟩
        have harith : i + (j + 1) = i + 1 + j := by omega
        simp [harith]
    · rintro ⟨j, hj, rfl⟩
      cases j with
      | zero => left; simp
      | succ j =>
          right
          refine ⟨j, by simpa using hj, ?_⟩
          have harith : i + (j + 1) = i + 1 + j := by omega
          simp [harith]

theorem idx_lt_of_mem_entriesFrom (i : Nat) (names : List String) (probs : List Conf)
    (e : Entry) (he : e ∈ entriesFrom i names probs) : i ≤ e.1 := by
  obtain ⟨j, _, rfl⟩ := (mem_entriesFrom i names probs e).mp he
  exact Nat.le_add_right i j

theorem pairwise_idx_entriesFrom (i : Nat) (names : List String) (probs : List Conf) :
    List.Pairwise (fun a b : Entry => a.1 < b.1) (entriesFrom i names probs) := by
  induction names generalizing i with
  | nil => exact List.Pairwise.nil
  | cons s rest ih =>
    refine List.Pairwise.cons (fun e he => ?_) (ih (i + 1))
    have := idx_lt_of_mem_entriesFrom (i + 1) rest probs e he
    omega

theorem buildEntriesAux_ok (names : List String) (probs : List Conf) (i : Nat)
    (h : i + names.length ≤ probs.length) :
    buildEntriesAux i names probs = Except.ok (entriesFrom i names probs) := by
  induction names generalizing i with
  | nil => rfl
  | cons s rest ih =>
    have hi : i < probs.length := by simp only [List.length_cons] at h; omega
    have hrec := ih (i + 1) (by simp only [List.length_cons] at h; omega)
    have hget : probs.get? i = some probs[i] := by
      rw [List.get?_eq_getElem?, List.getElem?_eq_getElem hi]
    have hgd : probs.getD i (qc 0) = probs[i] := List.getD_eq_getElem _ _ hi
    simp only [buildEntriesAux, entriesFrom, hget, hrec, hgd]

/-- Total preorder describing a stable descending confidence sort on a list
whose generation indices are strictly increasing: higher confidence first,
equal confidences in index order. -/
def rTotal (a b : Entry) : Prop := b.2.2 < a.2.2 ∨ (a.2.2 = b.2.2 ∧ a.1 ≤ b.1)

instance : DecidableRel rTotal := fun a b =>
  inferInstanceAs (Decidable (b.2.2 < a.2.2 ∨ (a.2.2 = b.2.2 ∧ a.1 ≤ b.1)))

/-- The strict ranking order of the specification: descending confidence,
ties broken by strictly ascending label index. -/
def rankStrict (a b : Entry) : Prop := b.2.2 < a.2.2 ∨ (a.2.2 = b.2.2 ∧ a.1 < b.1)

instance : IsTotal Entry rTotal where
  total a b := by
    rcases lt_trichotomy a.2.2 b.2.2 with h | h | h
    · exact Or.inr (Or.inl h)
    · rcases Nat.le_total a.1 b.1 with hn | hn
      · exact Or.inl (Or.inr ⟨h, hn⟩)
      · exact Or.inr (Or.inr ⟨h.symm, hn⟩)
    · exact Or.inl (Or.inl h)

instance : IsTrans Entry rTotal where
  trans a b c hab hbc := by
    rcases hab with hab | ⟨hab, hab'⟩ <;> rcases hbc with hbc | ⟨hbc, hbc'⟩
    · exact Or.inl (hbc.trans hab)
    · exact Or.inl (hbc ▸ hab)
    · exact Or.inl (hab ▸ hbc)
    · exact Or.inr ⟨hab.trans hbc, hab'.trans hbc'⟩

/-- On a list whose elements all have generation index above `a`'s, the
stable comparison (`confidence ≥`) and the index-refined total order insert
`a` at the same position. -/
theorem orderedInsert_rStable_eq_rTotal (a : Entry) (l : List Entry)
    (h : ∀ b ∈ l, a.1 < b.1) :
    List.orderedInsert rStable a l = List.orderedInsert rTotal a l := by
  induction l with
  | nil => rfl
  | cons b t ih =>
    have hiff : rStable a b ↔ rTotal a b := by
      unfold rStable rTotal
      constructor
      · intro hle
        rcases lt_or_eq_of_le hle with hlt | heq
        · exact Or.inl hlt
        · exact Or.inr ⟨heq.symm, (h b (List.mem_cons_self b t)).le⟩
      · rintro (hlt | ⟨heq, _⟩)
        · exact hlt.le
        · exact heq.ge
    have ih' := ih (fun c hc => h c (List.mem_cons_of_mem _ hc))
    simp only [List.orderedInsert]
    by_cases hc : rStable a b
    · rw [if_pos hc, if_pos (hiff.mp hc)]
    · rw [if_neg hc, if_neg (fun hr => hc (hiff.mpr hr)), ih']

/-- Python's stable descending sort of an index-increasing entry list
coincides with sorting by the index-refined total order. -/
theorem insertionSort_rStable_eq_rTotal (l : List Entry)
    (h : List.Pairwise (fun a b : Entry => a.1 < b.1) l) :
    List.insertionSort rStable l = List.insertionSort rTotal l := by
  induction l with
  | nil => rfl
  | cons a t ih =>
    rcases List.pairwise_cons.mp h with ⟨ha, ht⟩
    simp only [List.insertionSort]
    rw [ih ht]
    exact orderedInsert_rStable_eq_rTotal a _
      (fun b hb => ha b ((List.perm_insertionSort rTotal t).mem_iff.mp hb))

/-- The stable descending sort of an index-increasing entry list is sorted
by the strict specification order: confidence strictly descending, ties in
strictly ascending index order. -/
theorem pairwise_rankStrict_stableSortDesc (l : List Entry)
    (h : List.Pairwise (fun a b : Entry => a.1 < b.1) l) :
    List.Pairwise rankStrict (stableSortDesc l) := by
  unfold stableSortDesc
  rw [insertionSort_rStable_eq_rTotal l h]
  have hs : List.Sorted rTotal (List.insertionSort rTotal l) :=
    List.sorted_insertionSort rTotal l
  have hne : List.Pairwise (fun a b : Entry => a.1 ≠ b.1) (List.insertionSort rTotal l) := by
    exact ((List.perm_insertionSort rTotal l).pairwise_iff
      (fun hab => Ne.symm hab)).mpr (h.imp Nat.ne_of_lt)
  refine (hs.and hne).imp ?_
  rintro a b ⟨hab | ⟨heq, hle⟩, hne'⟩
  · exact Or.inl hab
  · exact Or.inr ⟨heq, lt_of_le_of_ne hle hne'⟩

theorem le_listMax (x : Conf) (xs : List Conf) : ∀ v ∈ x :: xs, v ≤ listMax x xs := by
  induction xs generalizing x with
  | nil => simp [listMax]
  | cons y ys ih =>
    intro v hv
    rcases List.mem_cons.mp hv with rfl | hv'
    · simp only [listMax]
      exact le_max_left _ _
    · simp only [listMax]
      exact le_trans (ih y v hv') (le_max_right _ _)

theorem firstArgmax_lt_length (x : Conf) (xs : List Conf) :
    firstArgmax x xs < xs.length + 1 := by
  induction xs generalizing x with
  | nil => simp [firstArgmax]
  | cons y ys ih =>
    simp only [firstArgmax, List.length_cons]
    by_cases h : listMax y ys ≤ x
    · rw [if_pos h]; omega
    · rw [if_neg h]
      have := ih y
      omega

theorem getD_firstArgmax (x : Conf) (xs : List Conf) :
    (x :: xs).getD (firstArgmax x xs) (qc 0) = listMax x xs := by
  induction xs generalizing x with
  | nil => simp [firstArgmax, listMax]
  | cons y ys ih =>
    simp only [firstArgmax, listMax]
    by_cases h : listMax y ys ≤ x
    · rw [if_pos h, List.getD_cons_zero, max_eq_left h]
    · rw [if_neg h, List.getD_cons_succ, ih y, max_eq_right (le_of_lt (not_le.mp h))]

theorem firstArgmax_le_of_attains (x : Conf) (xs : List Conf) (j : Nat)
    (hatt : listMax x xs ≤ (x :: xs).getD j (qc 0)) : firstArgmax x xs ≤ j := by
  induction xs generalizing x j with
  | nil => simp [firstArgmax]
  | cons y ys ih =>
    simp only [firstArgmax]
    by_cases h : listMax y ys ≤ x
    · rw [if_pos h]; exact Nat.zero_le j
    · rw [if_neg h]
      cases j with
      | zero =>
          exfalso
          rw [List.getD_cons_zero] at hatt
          rw [show listMax x (y :: ys) = max x (listMax y ys) from rfl] at hatt
          exact h (le_trans (le_max_right x (listMax y ys)) hatt)
      | succ j =>
          rw [List.getD_cons_succ] at hatt
          have hmax : listMax y ys ≤ (y :: ys).getD j (qc 0) := by
            refine le_trans ?_ hatt
            simp only [listMax]
            exact le_max_right _ _
          exact Nat.succ_le_succ (ih y j hmax)

/-- The ranked, truncated list the handler serialises as `all_predictions`. -/
def allPredictionsOf (labels : List String) (probs : List Conf) : List Entry :=
  (stableSortDesc (entriesFrom 0 labels probs)).take 5

theorem buildResponse_ok_core (labels : List String) (p : Conf) (ps : List Conf)
    (hlen : ps.length + 1 = labels.length) :
    buildResponse labels (p :: ps)
      = Except.ok
          { predicted_sign := labels.getD (firstArgmax p ps) ""
            confidence := (p :: ps).getD (firstArgmax p ps) (qc 0)
            all_predictions := allPredictionsOf labels (p :: ps) } := by
  have hk : firstArgmax p ps < (p :: ps).length := by
    simpa using firstArgmax_lt_length p ps
  have hk' : firstArgmax p ps < labels.length := by
    simp only [List.length_cons] at hk; omega
  have h1 : labels.get? (firstArgmax p ps) = some (labels.getD (firstArgmax p ps) "") := by
    rw [List.get?_eq_getElem?, List.getElem?_eq_getElem hk', List.getD_eq_getElem _ _ hk']
  have h2 : (p :: ps).get? (firstArgmax p ps)
      = some ((p :: ps).getD (firstArgmax p ps) (qc 0)) := by
    rw [List.get?_eq_getElem?, List.getElem?_eq_getElem hk, List.getD_eq_getElem _ _ hk]
  have h3 : buildEntries labels (p :: ps) = Except.ok (entriesFrom 0 labels (p :: ps)) :=
    buildEntriesAux_ok labels (p :: ps) 0 (by simp only [List.length_cons]; omega)
  simp only [buildResponse, npArgmax, h1, h2, h3, allPredictionsOf]

theorem mem_allPredictions_conf (labels : List String) (probs : List Conf)
    (hlen : probs.length = labels.length) (e : Entry)
    (he : e ∈ allPredictionsOf labels probs) : e.2.2 ∈ probs := by
  have he' : e ∈ entriesFrom 0 labels probs :=
    (List.perm_insertionSort rStable _).mem_iff.mp (List.mem_of_mem_take he)
  obtain ⟨j, hj, rfl⟩ := (mem_entriesFrom 0 labels probs e).mp he'
  have hj' : 0 + j < probs.length := by omega
  rw [show (0 + j, labels.getD j "", probs.getD (0 + j) (qc 0)).2.2
      = probs.getD (0 + j) (qc 0) from rfl]
  rw [List.getD_eq_getElem _ _ hj']
  exact List.getElem_mem _

theorem allPredictions_le_max (labels : List String) (p : Conf) (ps : List Conf)
    (hlen : ps.length + 1 = labels.length) (e : Entry)
    (he : e ∈ allPredictionsOf labels (p :: ps)) :
    e.2.2 ≤ (p :: ps).getD (firstArgmax p ps) (qc 0) := by
  rw [getD_firstArgmax]
  exact le_listMax p ps e.2.2
    (mem_allPredictions_conf labels (p :: ps) (by simpa using hlen) e he)

theorem head_allPredictions (labels : List String) (p : Conf) (ps : List Conf)
    (hlen : ps.length + 1 = labels.length) :
    (allPredictionsOf labels (p :: ps)).head?
      = some (firstArgmax p ps, labels.getD (firstArgmax p ps) "",
          (p :: ps).getD (firstArgmax p ps) (qc 0)) := by
  have hk : firstArgmax p ps < (p :: ps).length := by
    simpa using firstArgmax_lt_length p ps
  have hk' : firstArgmax p ps < labels.length := by
    simp only [List.length_cons] at hk; omega
  set entries := entriesFrom 0 labels (p :: ps) with hentries
  have hpw : List.Pairwise (fun a b : Entry => a.1 < b.1) entries :=
    pairwise_idx_entriesFrom 0 labels (p :: ps)
  have hperm : List.Perm (stableSortDesc entries) entries :=
    List.perm_insertionSort rStable entries
  have hlen_s : (stableSortDesc entries).length = labels.length := by
    rw [hperm.length_eq, entriesFrom_length]
  have hrank : List.Pairwise rankStrict (stableSortDesc entries) :=
    pairwise_rankStrict_stableSortDesc entries hpw
  have hne : stableSortDesc entries ≠ [] := by
    intro hcontra
    rw [hcontra] at hlen_s
    simp at hlen_s
    omega
  obtain ⟨h, t, hht⟩ := List.exists_cons_of_ne_nil hne
  have hhead : h ∈ stableSortDesc entries := by rw [hht]; exact List.mem_cons_self h t
  have hmemh : h ∈ entries := hperm.mem_iff.mp hhead
  obtain ⟨j₀, hj₀, hhe⟩ := (mem_entriesFrom 0 labels (p :: ps) h).mp hmemh
  have hj₀' : j₀ < (p :: ps).length := by simp only [List.length_cons]; omega
  set k := firstArgmax p ps with hkdef
  have hek : (k, labels.getD k "", (p :: ps).getD k (qc 0)) ∈ entries := by
    rw [mem_entriesFrom]
    exact ⟨k, hk', by simp⟩
  have heks : (k, labels.getD k "", (p :: ps).getD k (qc 0)) ∈ stableSortDesc entries :=
    hperm.mem_iff.mpr hek
  have hM : (p :: ps).getD k (qc 0) = listMax p ps := getD_firstArgmax p ps
  have hhconf : h.2.2 ≤ listMax p ps := by
    rw [hhe]
    exact le_listMax p ps _ (by rw [List.getD_eq_getElem _ _ (by omega : 0 + j₀ < (p :: ps).length)]; exact List.getElem_mem _)
  have hrank' : List.Pairwise rankStrict (h :: t) := by rw [hht] at hrank; exact hrank
  have heq : (k, labels.getD k "", (p :: ps).getD k (qc 0)) = h := by
    rw [hht] at heks
    rcases List.mem_cons.mp heks with heq | hmt
    · exact heq
    · exfalso
      have hr : rankStrict h (k, labels.getD k "", (p :: ps).getD k (qc 0)) :=
        List.rel_of_pairwise_cons hrank' hmt
      rcases hr with hlt | ⟨hceq, hilt⟩
      · have hmax : listMax p ps < h.2.2 := by
          have h22 : (k, labels.getD k "", (p :: ps).getD k (qc 0)).2.2 = listMax p ps := hM
          rw [← h22]
          exact hlt
        exact absurd hhconf (not_le.mpr hmax)
      · have hkle : k ≤ h.1 := by
          apply firstArgmax_le_of_attains
          have hh22 : h.2.2 = (p :: ps).getD h.1 (qc 0) := by rw [hhe]
          rw [← hh22, hceq]
          exact le_of_eq hM.symm
        have hilt' : h.1 < k := hilt
        omega
  unfold allPredictionsOf
  rw [← hentries, hht]
  rw [show List.take 5 (h :: t) = h :: List.take 4 t from rfl]
  rw [List.head?_cons, ← heq]

/-- C3: `all_predictions` is the entry list `(i, labels[i], probs[i])`
permuted into an order that is strictly sorted by descending confidence
with ties in ascending label index (the stable `reverse=True` sort), then
truncated to the first 5 entries — all `C` entries when `C < 5`. -/
theorem ranked_output_sorted_truncated (labels : List String) (probs : List Conf)
    (hlen : probs.length = labels.length) :
    buildEntries labels probs = Except.ok (entriesFrom 0 labels probs) ∧
    List.Perm (stableSortDesc (entriesFrom 0 labels probs)) (entriesFrom 0 labels probs) ∧
    List.Pairwise rankStrict (stableSortDesc (entriesFrom 0 labels probs)) ∧
    allPredictionsOf labels probs = (stableSortDesc (entriesFrom 0 labels probs)).take 5 ∧
    (allPredictionsOf labels probs).length = min 5 labels.length ∧
    (∀ out, buildResponse labels probs = Except.ok out →
      out.all_predictions = allPredictionsOf labels probs) := by
  refine ⟨buildEntriesAux_ok labels probs 0 (by omega),
    List.perm_insertionSort rStable _,
    pairwise_rankStrict_stableSortDesc _ (pairwise_idx_entriesFrom 0 labels probs),
    rfl, ?_, ?_⟩
  · unfold allPredictionsOf stableSortDesc
    rw [List.length_take, (List.perm_insertionSort rStable _).length_eq, entriesFrom_length]
  · intro out hout
    cases probs with
    | nil =>
        simp [buildResponse, npArgmax] at hout
    | cons p ps =>
        rw [buildResponse_ok_core labels p ps (by simpa using hlen)] at hout
        cases hout
        rfl

/-- C3 witness at the spec scenario (`labels [A,B,C]`,
`probs [0.1, 0.7, 0.2]`). -/
theorem ranked_output_sorted_truncated_witness :
    buildEntries ["A", "B", "C"] [qc (1/10), qc (7/10), qc (2/10)]
        = Except.ok (entriesFrom 0 ["A", "B", "C"] [qc (1/10), qc (7/10), qc (2/10)]) ∧
    List.Perm (stableSortDesc (entriesFrom 0 ["A", "B", "C"] [qc (1/10), qc (7/10), qc (2/10)]))
        (entriesFrom 0 ["A", "B", "C"] [qc (1/10), qc (7/10), qc (2/10)]) ∧
    List.Pairwise rankStrict
        (stableSortDesc (entriesFrom 0 ["A", "B", "C"] [qc (1/10), qc (7/10), qc (2/10)])) ∧
    allPredictionsOf ["A", "B", "C"] [qc (1/10), qc (7/10), qc (2/10)]
        = (stableSortDesc (entriesFrom 0 ["A", "B", "C"] [qc (1/10), qc (7/10), qc (2/10)])).take 5 ∧
    (allPredictionsOf ["A", "B", "C"] [qc (1/10), qc (7/10), qc (2/10)]).length
        = min 5 (["A", "B", "C"] : List String).length ∧
    (∀ out, buildResponse ["A", "B", "C"] [qc (1/10), qc (7/10), qc (2/10)] = Except.ok out →
      out.all_predictions = allPredictionsOf ["A", "B", "C"] [qc (1/10), qc (7/10), qc (2/10)]) :=
  ranked_output_sorted_truncated ["A", "B", "C"] [qc (1/10), qc (7/10), qc (2/10)] rfl

/-- C4: the singly reported `(predicted_sign, confidence)` pair is exactly
the head of `all_predictions`; its confidence bounds every ranked
confidence from above; and the reported label index is the least index
attaining that confidence, so on a tie between label indices `i < j` the
label at `i` is reported. -/
theorem top_prediction_is_first_max (labels : List String) (probs : List Conf)
    (hlen : probs.length = labels.length) (hC : 0 < labels.length) :
    ∃ out k, buildResponse labels probs = Except.ok out ∧
      k < labels.length ∧
      out.predicted_sign = labels.getD k "" ∧
      out.confidence = probs.getD k (qc 0) ∧
      out.all_predictions.head? = some (k, out.predicted_sign, out.confidence) ∧
      (∀ e ∈ out.all_predictions, e.2.2 ≤ out.confidence) ∧
      (∀ j, j < probs.length → out.confidence ≤ probs.getD j (qc 0) → k ≤ j) := by
  cases probs with
  | nil =>
      exfalso
      simp only [List.length_nil] at hlen
      omega
  | cons p ps =>
      have hlen' : ps.length + 1 = labels.length := by simpa using hlen
      have hk : firstArgmax p ps < (p :: ps).length := by
        simpa using firstArgmax_lt_length p ps
      have hk' : firstArgmax p ps < labels.length := by
        simp only [List.length_cons] at hk; omega
      refine ⟨_, firstArgmax p ps, buildResponse_ok_core labels p ps hlen', hk', rfl, rfl,
        ?_, ?_, ?_⟩
      · exact head_allPredictions labels p ps hlen'
      · intro e he
        exact allPredictions_le_max labels p ps hlen' e he
      · intro j hj hconf
        apply firstArgmax_le_of_attains
        calc listMax p ps = (p :: ps).getD (firstArgmax p ps) (qc 0) :=
              (getD_firstArgmax p ps).symm
          _ ≤ (p :: ps).getD j (qc 0) := hconf

/-- C4 witness at a tie: `labels [A,B]`, `probs [1, 1]`. -/
theorem top_prediction_is_first_max_witness :
    ∃ out k, buildResponse ["A", "B"] [qc 1, qc 1] = Except.ok out ∧
      k < (["A", "B"] : List String).length ∧
      out.predicted_sign = (["A", "B"] : List String).getD k "" ∧
      out.confidence = [qc 1, qc 1].getD k (qc 0) ∧
      out.all_predictions.head? = some (k, out.predicted_sign, out.confidence) ∧
      (∀ e ∈ out.all_predictions, e.2.2 ≤ out.confidence) ∧
      (∀ j, j < [qc 1, qc 1].length → out.confidence ≤ [qc 1, qc 1].getD j (qc 0) → k ≤ j) :=
  top_prediction_is_first_max ["A", "B"] [qc 1, qc 1] rfl (by decide)

/-! ### C7: non-finite classifier output is passed through, not rejected -/

/-- A bundle whose classifier reports `+∞` confidence for its first class. -/
def nonfiniteBundle : Bundle :=
  { model := fun _ => Except.ok [⊤, qc 0]
    labels := ["A", "B"]
    feature_names := ["x"]
    scaler_mean := [0]
    scaler_scale := [1] }

/-- C7 counterexample: on a well-formed request, a classifier returning an
infinite confidence does **not** produce a 500 `InferenceError`; the handler
serialises the non-finite value in a 200 response. -/
theorem nonfinite_output_returned_ok :
    predict nonfiniteBundle (some (Json.obj [("features", Json.obj [("x", Json.num 1)])]))
      = Resp.ok
          { predicted_sign := "A"
            confidence := ⊤
            all_predictions := [(0, "A", (⊤ : Conf)), (1, "B", qc 0)] } := by
  with_unfolding_all decide

/-- Dict lookup in an object built from a schema-keyed valuation. -/
theorem find?_map_pairs (names : List String) (g : String → ℚ) (n : String) (hn : n ∈ names) :
    (names.map (fun m => (m, Json.num (g m)))).find? (fun kv => kv.1 == n)
      = some (n, Json.num (g n)) := by
  induction names with
  | nil => cases hn
  | cons m rest ih =>
    rw [List.map_cons]
    by_cases hmn : m = n
    · subst hmn
      rw [List.find?_cons_of_pos _ (by simp)]
    · rw [List.find?_cons_of_neg _ (by simp [hmn])]
      refine ih ?_
      rcases List.mem_cons.mp hn with h | h
      · exact absurd h.symm hmn
      · exact h

/-- When every schema name resolves in the dict, the extraction loop
collects the values in schema order. -/
theorem extractFeatures_all_found (names : List String) (kvs : List (String × Json))
    (gv : String → Json)
    (H : ∀ n ∈ names, kvs.find? (fun kv => kv.1 == n) = some (n, gv n)) :
    extractFeatures names (Json.obj kvs) = ExtractRes.ok (names.map gv) := by
  induction names with
  | nil => rfl
  | cons n rest ih =>
    have hfind := H n (List.mem_cons_self n rest)
    have hany : kvs.any (fun kv => kv.1 == n) = true := by
      rw [List.any_eq_true]
      exact ⟨(n, gv n), List.mem_of_find?_eq_some hfind, by simp⟩
    have hrest := ih (fun m hm => H m (List.mem_cons_of_mem n hm))
    simp [extractFeatures, pyContains, hany, pyGetItem, hfind, hrest]

theorem toFloats_map_num (names : List String) (g : String → ℚ) :
    toFloats (names.map (fun n => Json.num (g n))) = Except.ok (names.map g) := by
  induction names with
  | nil => rfl
  | cons n rest ih => simp [toFloats, toFloat, ih]

/-- A well-formed request body: the schema names mapped through a numeric
valuation `g`. -/
def featuresBody (fnames : List String) (g : String → ℚ) : Json :=
  Json.obj [("features", Json.obj (fnames.map (fun n => (n, Json.num (g n)))))]

/-- On a well-formed body the handler reaches the numeric pipeline with the
schema-ordered vector `fnames.map g`. -/
theorem predict_featuresBody (model : List ℚ → Except PyErr (List Conf))
    (labels fnames : List String) (mean scale : List ℚ) (g : String → ℚ) :
    predict ⟨model, labels, fnames, mean, scale⟩ (some (featuresBody fnames g))
      = pipelineTail ⟨model, labels, fnames, mean, scale⟩ (fnames.map g) := by
  have hext := extractFeatures_all_found fnames
      (fnames.map (fun n => (n, Json.num (g n)))) (fun n => Json.num (g n))
      (fun n hn => find?_map_pairs fnames g n hn)
  simp [predict, featuresBody, pyContains, pyGetItem, pyLen, hext, toFloats_map_num]

/-- C7 amended: the handler applies no finiteness check to the classifier
output. A classifier that raises yields the generic 500 with `str(e)`; a
classifier that returns a vector — finite or not — has its values passed
straight into the 200 response: the reported confidence and every ranked
confidence are taken verbatim from the classifier output. -/
theorem classifier_outcome_passthrough
    (labels fnames : List String) (mean scale : List ℚ) (g : String → ℚ)
    (hm : mean.length = fnames.length) (hs : scale.length = fnames.length)
    (e : PyErr) (vs : List Conf) (hvs : vs.length = labels.length) (hC : 0 < labels.length) :
    predict ⟨fun _ => Except.error e, labels, fnames, mean, scale⟩
        (some (featuresBody fnames g)) = Resp.internalError e.msg ∧
    ∃ out, predict ⟨fun _ => Except.ok vs, labels, fnames, mean, scale⟩
        (some (featuresBody fnames g)) = Resp.ok out ∧
      out.confidence ∈ vs ∧ ∀ p ∈ out.all_predictions, p.2.2 ∈ vs := by
  have hmg : mean.length = (fnames.map g).length := by rw [List.length_map]; exact hm
  have hsg : scale.length = (fnames.map g).length := by rw [List.length_map]; exact hs
  have hnorm := normalizeVec_ok (fnames.map g) mean scale hmg hsg
  constructor
  · rw [predict_featuresBody]
    simp [pipelineTail, hnorm]
  · rw [predict_featuresBody]
    cases vs with
    | nil =>
        exfalso
        simp only [List.length_nil] at hvs
        omega
    | cons p ps =>
        have hlen' : ps.length + 1 = labels.length := by simpa using hvs
        have hk : firstArgmax p ps < (p :: ps).length := by
          simpa using firstArgmax_lt_length p ps
        refine ⟨{ predicted_sign := labels.getD (firstArgmax p ps) ""
                  confidence := (p :: ps).getD (firstArgmax p ps) (qc 0)
                  all_predictions := allPredictionsOf labels (p :: ps) }, ?_, ?_, ?_⟩
        · simp only [pipelineTail, hnorm]
          rw [buildResponse_ok_core labels p ps hlen']
        · show (p :: ps).getD (firstArgmax p ps) (qc 0) ∈ p :: ps
          rw [List.getD_eq_getElem _ _ hk]
          exact List.getElem_mem _
        · intro pr hpr
          exact mem_allPredictions_conf labels (p :: ps) (by simpa using hvs) pr hpr

/-- C7 amended witness. -/
theorem classifier_outcome_passthrough_witness :
    predict ⟨fun _ => Except.error (PyErr.other "boom"), ["A", "B"], ["x"], [0], [1]⟩
        (some (featuresBody ["x"] (fun _ => 1)))
      = Resp.internalError (PyErr.other "boom").msg ∧
    ∃ out, predict ⟨fun _ => Except.ok [qc 0, ⊤], ["A", "B"], ["x"], [0], [1]⟩
        (some (featuresBody ["x"] (fun _ => 1))) = Resp.ok out ∧
      out.confidence ∈ [qc 0, (⊤ : Conf)] ∧
      ∀ p ∈ out.all_predictions, p.2.2 ∈ [qc 0, (⊤ : Conf)] :=
  classifier_outcome_passthrough ["A", "B"] ["x"] [0] [1] (fun _ => 1) rfl rfl
    (PyErr.other "boom") [qc 0, ⊤] rfl (by decide)
